/-
Verification of the image acquisition and caching subsystem of
`image_filter.py` (gallery-style image browser).

The Python source is shallowly embedded below.  Real-valued arithmetic
(Python float division) is modelled exactly over ℚ; Python's `int(...)`
conversion (truncation toward zero) is modelled by `pyInt`.  Caches
(Python dicts) are modelled as functions into `Option`; Python sets and
lists as Lean lists.  All definitions are executable.
-/
import Mathlib

/-- Python `int(q)` applied to a float value: truncation toward zero. -/
def pyInt (q : ℚ) : ℤ := if 0 ≤ q then ⌊q⌋ else ⌈q⌉

/-- Fit-to-viewport scale, from `_preload_next` line 201
(`ratio = min(cw / img.width, ch / img.height)`); the same expression is
computed at `_render` line 330 (`base_ratio`) and `show_image` line 260
(`expected_ratio`). -/
def fitScale (w h vw vh : ℕ) : ℚ := min ((vw : ℚ) / (w : ℚ)) ((vh : ℚ) / (h : ℚ))

/-- Fitted width, from `_preload_next` line 202:
`fw = max(int(img.width * ratio), 1)`. -/
def fitW (w h vw vh : ℕ) : ℤ := max (pyInt ((w : ℚ) * fitScale w h vw vh)) 1

/-- Fitted height, from `_preload_next` line 203:
`fh = max(int(img.height * ratio), 1)`. -/
def fitH (w h vw vh : ℕ) : ℤ := max (pyInt ((h : ℚ) * fitScale w h vw vh)) 1

/-- Modelled from the spec: the spec's fit computation
`outH = max(round(imageH*scale), 1)`, i.e. with rounding where the code
truncates.  Used only to compare against `fitH`. -/
def specRoundFitH (w h vw vh : ℕ) : ℤ := max (round ((h : ℚ) * fitScale w h vw vh)) 1

/-- Rendered width from `_render` lines 330-332: `base_ratio` times the
zoom level, truncated, clamped to at least 1; canvas dimensions are
clamped to at least 400 (lines 327-328). -/
def renderW (w h cw ch : ℕ) (zoom : ℚ) : ℤ :=
  max (pyInt ((w : ℚ) * (fitScale w h (max cw 400) (max ch 400) * zoom))) 1

/-- Rendered height from `_render` lines 330-331 and 333. -/
def renderH (w h cw ch : ℕ) (zoom : ℚ) : ℤ :=
  max (pyInt ((h : ℚ) * (fitScale w h (max cw 400) (max ch 400) * zoom))) 1

-- § IEEE binary64 semantics of the fit computation

/-- Round a rational to the nearest integer, ties to even — the integer
core of IEEE-754 round-to-nearest-even. -/
def roundHalfEven (q : ℚ) : ℤ :=
  if q - ⌊q⌋ < 1 / 2 then ⌊q⌋
  else if 1 / 2 < q - ⌊q⌋ then ⌊q⌋ + 1
  else if ⌊q⌋ % 2 = 0 then ⌊q⌋ else ⌊q⌋ + 1

/-- IEEE-754 binary64 rounding (round to nearest, ties to even) of a
positive rational in the normal range: the exact value is scaled into the
53-bit mantissa range `[2^52, 2^53)` by its binade exponent `Int.log 2 q`,
the mantissa is rounded half-to-even, and the result rescaled.  This is the
value every correctly-rounded Python float operation produces for the
magnitudes arising in the fit computation (no overflow or subnormals there);
nonpositive inputs, never produced on that path, map to 0. -/
def roundDouble (q : ℚ) : ℚ :=
  if q ≤ 0 then 0
  else ((roundHalfEven (q * 2 ^ (52 - Int.log 2 q)) : ℚ)) * 2 ^ (Int.log 2 q - 52)

/-- The fit scale of `_preload_next` line 201 as Python executes it in IEEE
binary64 floats: each `int / int` true division is correctly rounded (the
operands, pixel counts far below `2^53`, are exactly representable) and
`min` on floats is exact. -/
def floatFitScale (w h vw vh : ℕ) : ℚ :=
  min (roundDouble ((vw : ℚ) / (w : ℚ))) (roundDouble ((vh : ℚ) / (h : ℚ)))

/-- The fitted width of `_preload_next` line 202 in IEEE binary64 floats:
one correctly-rounded multiply of the exact integer width by the float
scale, then `int()` truncation and `max(..., 1)`. -/
def floatFitW (w h vw vh : ℕ) : ℤ :=
  max (pyInt (roundDouble ((w : ℚ) * floatFitScale w h vw vh))) 1

/-- The fitted height of `_preload_next` line 203 in IEEE binary64 floats. -/
def floatFitH (w h vw vh : ℕ) : ℤ :=
  max (pyInt (roundDouble ((h : ℚ) * floatFitScale w h vw vh))) 1

-- § show_image dispatch (lines 243-273)

/-- Which rendering action `show_image` takes for the current index. -/
inductive RenderPath where
  /-- `index >= len(self.images)`: clamp the index and return (lines 249-251). -/
  | outOfRange : RenderPath
  /-- `_render_phone_mode()` (line 268). -/
  | phone : RenderPath
  /-- `_render_from_fitted(self._prerendered_fitted)` (line 270): the
  prefetched fitted image is presented directly. -/
  | fromFitted : RenderPath
  /-- `_render(high_quality=False)` then `_schedule_hq_render()`
  (lines 272-273): a synchronous on-demand resample of the decoded image. -/
  | fastThenHQ : RenderPath
  /-- `_render` with `current_pil_image is None` (lines 307-317): the
  explicit cannot-load state. -/
  | cannotLoad : RenderPath
deriving DecidableEq

/-- The `use_fitted` check of `show_image` lines 256-265: the prefetched
fitted image is used only when present, at zoom 1.0, with a decoded image,
and its size within ±2 px of the fit size for the live canvas
(`max(winfo, 400)` per axis, lines 254-255). -/
def useFitted (img fitted : Option (ℕ × ℕ)) (zoom : ℚ) (cw ch : ℕ) : Bool :=
  match fitted, img with
  | some (fw, fh), some (w, h) =>
    if zoom = 1 then
      let canvasW : ℕ := max cw 400
      let canvasH : ℕ := max ch 400
      let expectedScale : ℚ := min ((canvasW : ℚ) / (w : ℚ)) ((canvasH : ℚ) / (h : ℚ))
      let expectedW : ℤ := max (pyInt ((w : ℚ) * expectedScale)) 1
      let expectedH : ℤ := max (pyInt ((h : ℚ) * expectedScale)) 1
      decide (|(fw : ℤ) - expectedW| ≤ 2 ∧ |(fh : ℤ) - expectedH| ≤ 2)
    else false
  | _, _ => false

/-- The dispatch of `show_image` lines 249-273: out-of-range check, then
phone mode, then the `use_fitted` gate, else the synchronous fast render
(which shows the cannot-load state when the decoded image is absent). -/
def showImagePath (phoneMode : Bool) (index count : ℤ) (img fitted : Option (ℕ × ℕ))
    (zoom : ℚ) (cw ch : ℕ) : RenderPath :=
  if count ≤ index then .outOfRange
  else if phoneMode then .phone
  else if useFitted img fitted zoom cw ch then .fromFitted
  else if img.isNone then .cannotLoad
  else .fastThenHQ

-- § Navigation (on_prev lines 732-736, on_next lines 738-742, show_image clamp lines 249-250)

/-- Index update of `on_prev` (lines 732-736): no-op at or below 0. -/
def onPrevIndex (index : ℤ) : ℤ := if index ≤ 0 then index else index - 1

/-- Index update of `on_next` (lines 738-742): no-op at or beyond the last
position. -/
def onNextIndex (index count : ℤ) : ℤ := if count - 1 ≤ index then index else index + 1

/-- Index clamp of `show_image` lines 249-250:
`if self.index >= len(self.images): self.index = max(0, len(self.images) - 1)`. -/
def showImageClampIndex (index count : ℤ) : ℤ :=
  if count ≤ index then max 0 (count - 1) else index

-- § Look-ahead prefetch cache (_preload_next lines 177-206)

/-- A prefetch window entry `(img, fitted)` as published at line 206: the
decoded image (`None` on decode failure) and the optional pre-fitted image,
each represented by its dimensions. -/
def PreEntry : Type := Option (ℕ × ℕ) × Option (ℤ × ℤ)

/-- The preload cache `self._preload_cache`: index to entry. -/
def PreCache : Type := ℕ → Option PreEntry

/-- Upcoming indices, `_preload_next` lines 179-180:
`[self.index + i for i in range(1, count + 1) if self.index + i < len(self.images)]`. -/
def preloadIndices (index count n : ℕ) : List ℕ :=
  ((List.range n).map (fun i => index + i + 1)).filter (fun k => decide (k < count))

/-- The purge step, lines 181-186: every key outside
`set(indices) | {self.index}` is deleted. -/
def preloadPurge (cache : PreCache) (index count n : ℕ) : PreCache :=
  fun k => if k = index ∨ k ∈ preloadIndices index count n then cache k else none

/-- The fitted component computed at lines 197-204: present only when the
image decoded and a canvas size is known. -/
def mkFitted (img : Option (ℕ × ℕ)) (canvasSize : Option (ℕ × ℕ)) : Option (ℤ × ℤ) :=
  match img, canvasSize with
  | some (w, h), some (cw, ch) => some (fitW w h cw ch, fitH w h cw ch)
  | _, _ => none

/-- The body of the loop at lines 191-206 for one index: skip if already
cached, otherwise decode from disk, pre-fit, and publish `(img, fitted)`;
the list component accumulates the indices actually decoded (the scheduled
jobs). -/
def preloadStep (decode : ℕ → Option (ℕ × ℕ)) (canvasSize : Option (ℕ × ℕ))
    (acc : PreCache × List ℕ) (idx : ℕ) : PreCache × List ℕ :=
  if (acc.1 idx).isSome then acc
  else
    let img := decode idx
    let entry : PreEntry := (img, mkFitted img canvasSize)
    (fun k => if k = idx then some entry else acc.1 k, acc.2 ++ [idx])

/-- `_preload_next` (lines 177-206): purge, then decode each missing
upcoming index.  `decode` abstracts `_load_image_from_disk` on the files of
the collection; `canvasSize` is `self._preload_canvas_size`. -/
def preloadNext (decode : ℕ → Option (ℕ × ℕ)) (canvasSize : Option (ℕ × ℕ))
    (cache : PreCache) (index count n : ℕ) : PreCache × List ℕ :=
  (preloadIndices index count n).foldl (preloadStep decode canvasSize)
    (preloadPurge cache index count n, [])

-- § Viewport refit (_refit_image lines 710-730)

/-- The cache effect of `_refit_image`: `self._preload_cache.clear()`
(line 720) and `self._preload_canvas_size = (cw, ch)` with canvas
dimensions clamped to at least 400 (lines 721-724).  Returns the emptied
cache and the new canvas size. -/
def refitPrefetch (_cache : PreCache) (cw ch : ℕ) : PreCache × (ℕ × ℕ) :=
  (fun _ => none, (max cw 400, max ch 400))

-- § Image decoder (_load_image_from_disk lines 162-175)

/-- The working-size ceiling `max_dim` (line 168). -/
def maxDim : ℕ := 4096

/-- PIL's `Image.thumbnail` aspect rounding (`round_aspect`): the floor or
the ceiling of the exact scaled value — whichever the error-minimising key
selects, abstracted as `choice` — and at least 1. -/
def roundAspect (choice : Bool) (q : ℚ) : ℤ := max (if choice then ⌊q⌋ else ⌈q⌉) 1

/-- PIL's `Image.thumbnail((target, target))` size computation: unchanged
when already within bounds; otherwise the bound is kept on the relatively
larger axis and the other axis is scaled by the aspect ratio. -/
def pilThumbnail (choice : Bool) (w h target : ℕ) : ℕ × ℕ :=
  if w ≤ target ∧ h ≤ target then (w, h)
  else if (target : ℚ) / (target : ℚ) ≥ (w : ℚ) / (h : ℚ) then
    ((roundAspect choice ((target : ℚ) * ((w : ℚ) / (h : ℚ)))).toNat, target)
  else (target, (roundAspect choice ((target : ℚ) / ((w : ℚ) / (h : ℚ)))).toNat)

/-- `_load_image_from_disk` (lines 162-175): on any exception the failure
marker `None` is returned; an image with either dimension above `maxDim` is
downsampled via `img.thumbnail((4096, 4096), LANCZOS)`; otherwise it is
loaded at full resolution.  `decoded` abstracts the `Image.open` +
`exif_transpose` outcome: the image dimensions, or `none` for any
exception. -/
def loadImageFromDisk (choice : Bool) (decoded : Option (ℕ × ℕ)) : Option (ℕ × ℕ) :=
  match decoded with
  | none => none
  | some (w, h) =>
    if maxDim < w ∨ maxDim < h then some (pilThumbnail choice w h maxDim)
    else some (w, h)

-- § Thumbnail grid (class ThumbnailGridWindow)

/-- Grid constant `COLUMNS = 6` (line 835). -/
def COLUMNS : ℤ := 6

/-- Grid constant `CELL_H = 160` (line 834). -/
def CELL_H : ℤ := 160

/-- `total_rows = (total + COLUMNS - 1) // COLUMNS` (line 841); Python `//`
is floor division. -/
def totalRowsOf (total : ℤ) : ℤ := Int.fdiv (total + COLUMNS - 1) COLUMNS

/-- `_get_visible_range` (lines 906-915): `(0, 0)` for an unrealised
canvas, otherwise one overscan row on each side, clamped to
`[0, total_rows - 1]`.  `yTop` is `canvasy(0)`. -/
def getVisibleRange (canvasH : ℤ) (yTop : ℚ) (totalRows : ℤ) : ℤ × ℤ :=
  if canvasH ≤ 1 then (0, 0)
  else
    (max 0 (pyInt (yTop / (CELL_H : ℚ)) - 1),
     min (totalRows - 1) (pyInt ((yTop + (canvasH : ℚ)) / (CELL_H : ℚ)) + 1))

/-- Worker-pool events of the `_load_visible_thumbs` submission loop
(lines 1025-1028), in program order. -/
inductive ThumbEvent where
  | addPending : ℤ → ThumbEvent
  | submit : ℤ → ThumbEvent
deriving DecidableEq

/-- The event trace of the submission loop: for each index to load, first
`self._pending_indices.add(i)`, then `self._executor.submit(...)`. -/
def submitEvents (toLoad : List ℤ) : List ThumbEvent :=
  toLoad.flatMap (fun i => [ThumbEvent.addPending i, ThumbEvent.submit i])

/-- The persistent thumbnail cache `self.app._thumb_cache` (dimensions
only). -/
def ThumbCache : Type := ℤ → Option (ℕ × ℕ)

/-- The outcome of one `_load_visible_thumbs` pass. -/
structure ThumbLoadResult where
  toLoad : List ℤ
  newPending : List ℤ
  events : List ThumbEvent

/-- The Python iteration `range(first_idx, last_idx)` of
`_load_visible_thumbs` lines 1008-1012, with
`first_idx = max(0, first_row * COLUMNS)` and
`last_idx = min(total, (last_row + 1) * COLUMNS)`. -/
def visibleIdxRange (firstRow lastRow total : ℤ) : List ℤ :=
  (List.range (min total ((lastRow + 1) * COLUMNS) - max 0 (firstRow * COLUMNS)).toNat).map
    (fun (k : ℕ) => max 0 (firstRow * COLUMNS) + (k : ℤ))

/-- `_load_visible_thumbs` (lines 1006-1028): consider the indices
`range(max(0, first_row*COLUMNS), min(total, (last_row+1)*COLUMNS))`; skip
those already in the thumbnail cache or in the pending set; add each
remaining index to the pending set and submit it. -/
def loadVisibleThumbs (cache : ThumbCache) (pending : List ℤ)
    (firstRow lastRow total : ℤ) : ThumbLoadResult :=
  let toLoad := (visibleIdxRange firstRow lastRow total).filter
      (fun i => decide (cache i = none ∧ i ∉ pending))
  ⟨toLoad, pending ++ toLoad, submitEvents toLoad⟩

/-- The state after `_load_and_callback` (lines 1030-1043). -/
structure ThumbCallbackResult where
  cache : ThumbCache
  pending : List ℤ
  uiScheduled : Bool

/-- `_load_and_callback` (lines 1030-1043): abort when loading has stopped;
on decode failure (`None`) discard the pending mark and record nothing; on
success publish into the thumbnail cache, discard the pending mark, and
schedule the canvas update. -/
def loadAndCallback (decodeThumb : ℤ → Option (ℕ × ℕ)) (stopLoading : Bool)
    (cache : ThumbCache) (pending : List ℤ) (idx : ℤ) : ThumbCallbackResult :=
  if stopLoading then ⟨cache, pending, false⟩
  else
    match decodeThumb idx with
    | none => ⟨cache, pending.filter (fun j => decide (j ≠ idx)), false⟩
    | some img =>
      ⟨fun k => if k = idx then some img else cache k,
       pending.filter (fun j => decide (j ≠ idx)), true⟩

-- § Helper lemmas about the fit calculator

theorem fitScale_nonneg (w h vw vh : ℕ) : 0 ≤ fitScale w h vw vh :=
  le_min (div_nonneg (Nat.cast_nonneg _) (Nat.cast_nonneg _))
    (div_nonneg (Nat.cast_nonneg _) (Nat.cast_nonneg _))

theorem pyInt_of_nonneg {q : ℚ} (h : 0 ≤ q) : pyInt q = ⌊q⌋ := if_pos h

theorem fitW_eq_floor (w h vw vh : ℕ) :
    fitW w h vw vh = max ⌊(w : ℚ) * fitScale w h vw vh⌋ 1 := by
  rw [fitW, pyInt_of_nonneg (mul_nonneg (Nat.cast_nonneg w) (fitScale_nonneg w h vw vh))]

theorem fitH_eq_floor (w h vw vh : ℕ) :
    fitH w h vw vh = max ⌊(h : ℚ) * fitScale w h vw vh⌋ 1 := by
  rw [fitH, pyInt_of_nonneg (mul_nonneg (Nat.cast_nonneg h) (fitScale_nonneg w h vw vh))]

theorem one_le_fitW (w h vw vh : ℕ) : 1 ≤ fitW w h vw vh := le_max_right _ _

theorem one_le_fitH (w h vw vh : ℕ) : 1 ≤ fitH w h vw vh := le_max_right _ _

theorem fitW_le_viewport (w h vw vh : ℕ) (hw : 1 ≤ w) (hvw : 1 ≤ vw) :
    fitW w h vw vh ≤ (vw : ℤ) := by
  rw [fitW_eq_floor]
  refine max_le ?_ (by exact_mod_cast hvw)
  have hw0 : (0 : ℚ) < (w : ℚ) := by exact_mod_cast hw
  have h2 : (w : ℚ) * ((vw : ℚ) / (w : ℚ)) = (vw : ℚ) := by
    rw [mul_comm]; exact div_mul_cancel₀ _ hw0.ne'
  have h1 : (w : ℚ) * fitScale w h vw vh ≤ (vw : ℚ) := by
    rw [← h2]
    exact mul_le_mul_of_nonneg_left (min_le_left _ _) hw0.le
  calc ⌊(w : ℚ) * fitScale w h vw vh⌋ ≤ ⌊(vw : ℚ)⌋ := Int.floor_le_floor h1
    _ = (vw : ℤ) := Int.floor_natCast vw

theorem fitH_le_viewport (w h vw vh : ℕ) (hh : 1 ≤ h) (hvh : 1 ≤ vh) :
    fitH w h vw vh ≤ (vh : ℤ) := by
  rw [fitH_eq_floor]
  refine max_le ?_ (by exact_mod_cast hvh)
  have hh0 : (0 : ℚ) < (h : ℚ) := by exact_mod_cast hh
  have h2 : (h : ℚ) * ((vh : ℚ) / (h : ℚ)) = (vh : ℚ) := by
    rw [mul_comm]; exact div_mul_cancel₀ _ hh0.ne'
  have h1 : (h : ℚ) * fitScale w h vw vh ≤ (vh : ℚ) := by
    rw [← h2]
    exact mul_le_mul_of_nonneg_left (min_le_right _ _) hh0.le
  calc ⌊(h : ℚ) * fitScale w h vw vh⌋ ≤ ⌊(vh : ℚ)⌋ := Int.floor_le_floor h1
    _ = (vh : ℤ) := Int.floor_natCast vh

theorem fitW_eq_of_scale_left (w h vw vh : ℕ) (hw : 1 ≤ w) (hvw : 1 ≤ vw)
    (hc : fitScale w h vw vh = (vw : ℚ) / (w : ℚ)) : fitW w h vw vh = (vw : ℤ) := by
  have hw0 : (0 : ℚ) < (w : ℚ) := by exact_mod_cast hw
  rw [fitW_eq_floor, hc,
    show (w : ℚ) * ((vw : ℚ) / (w : ℚ)) = (vw : ℚ) by
      rw [mul_comm]; exact div_mul_cancel₀ _ hw0.ne',
    Int.floor_natCast]
  exact max_eq_left (by exact_mod_cast hvw)

theorem fitH_eq_of_scale_right (w h vw vh : ℕ) (hh : 1 ≤ h) (hvh : 1 ≤ vh)
    (hc : fitScale w h vw vh = (vh : ℚ) / (h : ℚ)) : fitH w h vw vh = (vh : ℤ) := by
  have hh0 : (0 : ℚ) < (h : ℚ) := by exact_mod_cast hh
  rw [fitH_eq_floor, hc,
    show (h : ℚ) * ((vh : ℚ) / (h : ℚ)) = (vh : ℚ) by
      rw [mul_comm]; exact div_mul_cancel₀ _ hh0.ne',
    Int.floor_natCast]
  exact max_eq_left (by exact_mod_cast hvh)

-- § Helper lemmas for evaluating the binary64 model

theorem Int_log_eval {q : ℚ} {e : ℤ} (hq : 0 < q) (h1 : (2 : ℚ) ^ e ≤ q)
    (h2 : q < (2 : ℚ) ^ (e + 1)) : Int.log 2 q = e := by
  have h1x : ((2 : ℕ) : ℚ) ^ e ≤ q := by rwa [Nat.cast_ofNat]
  have h2x : q < ((2 : ℕ) : ℚ) ^ (e + 1) := by rwa [Nat.cast_ofNat]
  have ha := (Int.zpow_le_iff_le_log (by norm_num) hq).mp h1x
  have hb := (Int.lt_zpow_iff_log_lt (by norm_num) hq).mp h2x
  omega

theorem roundHalfEven_eq_floor {q : ℚ} {f : ℤ} (hf : ⌊q⌋ = f)
    (h : q - (f : ℚ) < 1 / 2) : roundHalfEven q = f := by
  rw [roundHalfEven, hf, if_pos h]

theorem roundHalfEven_eq_add_one {q : ℚ} {f : ℤ} (hf : ⌊q⌋ = f)
    (h : 1 / 2 < q - (f : ℚ)) : roundHalfEven q = f + 1 := by
  rw [roundHalfEven, hf, if_neg (not_lt.mpr h.le), if_pos h]

theorem roundHalfEven_tie_odd {q : ℚ} {f : ℤ} (hf : ⌊q⌋ = f)
    (h : q - (f : ℚ) = 1 / 2) (hodd : f % 2 = 1) : roundHalfEven q = f + 1 := by
  rw [roundHalfEven, hf, if_neg (by rw [h]; norm_num), if_neg (by rw [h]; norm_num),
    if_neg (by omega)]

theorem roundDouble_eval {q : ℚ} {e m s t : ℤ} (hq : 0 < q) (he : Int.log 2 q = e)
    (hs : 52 - e = s) (ht : e - 52 = t) (hm : roundHalfEven (q * 2 ^ s) = m) :
    roundDouble q = (m : ℚ) * 2 ^ t := by
  rw [roundDouble, if_neg (not_le.mpr hq), he, hs, ht, hm]

-- § Claim C1

/-- C1 (corrected): the fit computation at both code sites
(`_preload_next` lines 201-203 and `_render` lines 330-333 at zoom 1.0)
returns `scale = min(viewportW/imageW, viewportH/imageH)` and dimensions
`outW = max(trunc(imageW*scale), 1)`, `outH = max(trunc(imageH*scale), 1)`
— obtained by truncation (`int(...)`), not rounding — deterministically
(as a pure function of its arguments). -/
theorem fit_truncation_formula (w h vw vh cw ch : ℕ) :
    fitW w h vw vh = max ⌊(w : ℚ) * min ((vw : ℚ) / (w : ℚ)) ((vh : ℚ) / (h : ℚ))⌋ 1 ∧
    fitH w h vw vh = max ⌊(h : ℚ) * min ((vw : ℚ) / (w : ℚ)) ((vh : ℚ) / (h : ℚ))⌋ 1 ∧
    renderW w h cw ch 1 = fitW w h (max cw 400) (max ch 400) ∧
    renderH w h cw ch 1 = fitH w h (max cw 400) (max ch 400) := by
  refine ⟨fitW_eq_floor w h vw vh, fitH_eq_floor w h vw vh, ?_, ?_⟩
  · rw [renderW, fitW, mul_one]
  · rw [renderH, fitH, mul_one]

/-- C1 counterexample: at image 5×3 in a 3×3 viewport the scale is 3/5 and
`imageH*scale = 9/5`; the code truncates it to 1 while the claimed rounding
would give 2, so the claim's `outH = max(round(imageH*scale), 1)` is false. -/
theorem fit_round_counterexample : fitH 5 3 3 3 ≠ specRoundFitH 5 3 3 3 := by
  have hs : fitScale 5 3 3 3 = 3 / 5 := by rw [fitScale]; norm_num
  have h1 : fitH 5 3 3 3 = 1 := by
    rw [fitH, hs, pyInt]
    norm_num
  have h2 : specRoundFitH 5 3 3 3 = 2 := by
    rw [specRoundFitH, hs, round_eq]
    norm_num
  rw [h1, h2]; decide

-- § Claim C9

/-- C9 counterexample: under the program's IEEE binary64 float arithmetic
the fit computation is not idempotent.  A 2385×73 image in a 683×709
viewport fits to (682, 20): `683/2385` rounds to a double slightly below
the exact ratio, so `int(2385 * ratio)` truncates `683 − ε` to 682.
Refitting (682, 20) in the same viewport yields (683, 20), so the claim,
instantiated at its own first output, fails. -/
theorem float_fit_not_idempotent :
    floatFitW 2385 73 683 709 = 682 ∧ floatFitH 2385 73 683 709 = 20 ∧
    floatFitW 682 20 683 709 = 683 ∧ floatFitH 682 20 683 709 = 20 ∧
    ¬(floatFitW (floatFitW 2385 73 683 709).toNat (floatFitH 2385 73 683 709).toNat
          683 709 = floatFitW 2385 73 683 709 ∧
      floatFitH (floatFitW 2385 73 683 709).toNat (floatFitH 2385 73 683 709).toNat
          683 709 = floatFitH 2385 73 683 709) := by
  have ha : roundDouble ((683 : ℚ) / 2385) = (5158840327872618 : ℚ) * 2 ^ (-(54 : ℤ)) := by
    have he : Int.log 2 ((683 : ℚ) / 2385) = -2 :=
      Int_log_eval (by norm_num) (by norm_num) (by norm_num)
    have hm : roundHalfEven ((683 : ℚ) / 2385 * 2 ^ (54 : ℤ)) = 5158840327872618 :=
      roundHalfEven_eq_floor (by norm_num) (by norm_num)
    exact roundDouble_eval (by norm_num) he (by norm_num) (by norm_num) hm
  have hb : roundDouble ((709 : ℚ) / 73) = (5467555027064523 : ℚ) * 2 ^ (-(49 : ℤ)) := by
    have he : Int.log 2 ((709 : ℚ) / 73) = 3 :=
      Int_log_eval (by norm_num) (by norm_num) (by norm_num)
    have hm : roundHalfEven ((709 : ℚ) / 73 * 2 ^ (49 : ℤ)) = 5467555027064523 :=
      roundHalfEven_eq_floor (by norm_num) (by norm_num)
    exact roundDouble_eval (by norm_num) he (by norm_num) (by norm_num) hm
  have hs1 : floatFitScale 2385 73 683 709 = (5158840327872618 : ℚ) * 2 ^ (-(54 : ℤ)) := by
    rw [floatFitScale]
    simp only [Nat.cast_ofNat]
    rw [ha, hb]
    exact min_eq_left (by norm_num)
  have hp : roundDouble ((2385 : ℚ) * ((5158840327872618 : ℚ) * 2 ^ (-(54 : ℤ)))) =
      (6007731534168063 : ℚ) * 2 ^ (-(43 : ℤ)) := by
    have he : Int.log 2 ((2385 : ℚ) * ((5158840327872618 : ℚ) * 2 ^ (-(54 : ℤ)))) = 9 :=
      Int_log_eval (by positivity) (by norm_num) (by norm_num)
    have hm : roundHalfEven ((2385 : ℚ) * ((5158840327872618 : ℚ) * 2 ^ (-(54 : ℤ))) *
        2 ^ (43 : ℤ)) = 6007731534168063 :=
      roundHalfEven_eq_floor (by norm_num) (by norm_num)
    exact roundDouble_eval (by positivity) he (by norm_num) (by norm_num) hm
  have hW1 : floatFitW 2385 73 683 709 = 682 := by
    rw [floatFitW]
    simp only [Nat.cast_ofNat]
    rw [hs1, hp, pyInt, if_pos (by positivity)]
    have hfl : ⌊(6007731534168063 : ℚ) * 2 ^ (-(43 : ℤ))⌋ = 682 := by norm_num
    rw [hfl]
    decide
  have hp2 : roundDouble ((73 : ℚ) * ((5158840327872618 : ℚ) * 2 ^ (-(54 : ℤ)))) =
      (5884302248979705 : ℚ) * 2 ^ (-(48 : ℤ)) := by
    have he : Int.log 2 ((73 : ℚ) * ((5158840327872618 : ℚ) * 2 ^ (-(54 : ℤ)))) = 4 :=
      Int_log_eval (by positivity) (by norm_num) (by norm_num)
    have hm : roundHalfEven ((73 : ℚ) * ((5158840327872618 : ℚ) * 2 ^ (-(54 : ℤ))) *
        2 ^ (48 : ℤ)) = 5884302248979705 := by
      have hf : ⌊(73 : ℚ) * ((5158840327872618 : ℚ) * 2 ^ (-(54 : ℤ))) * 2 ^ (48 : ℤ)⌋ =
          5884302248979704 := by norm_num
      rw [roundHalfEven_eq_add_one hf (by norm_num)]
      decide
    exact roundDouble_eval (by positivity) he (by norm_num) (by norm_num) hm
  have hH1 : floatFitH 2385 73 683 709 = 20 := by
    rw [floatFitH]
    simp only [Nat.cast_ofNat]
    rw [hs1, hp2, pyInt, if_pos (by positivity)]
    have hfl : ⌊(5884302248979705 : ℚ) * 2 ^ (-(48 : ℤ))⌋ = 20 := by norm_num
    rw [hfl]
    decide
  have hr3 : roundDouble ((683 : ℚ) / 682) = (4510203145885702 : ℚ) * 2 ^ (-(52 : ℤ)) := by
    have he : Int.log 2 ((683 : ℚ) / 682) = 0 :=
      Int_log_eval (by norm_num) (by norm_num) (by norm_num)
    have hm : roundHalfEven ((683 : ℚ) / 682 * 2 ^ (52 : ℤ)) = 4510203145885702 :=
      roundHalfEven_eq_floor (by norm_num) (by norm_num)
    exact roundDouble_eval (by norm_num) he (by norm_num) (by norm_num) hm
  have hr4 : roundDouble ((709 : ℚ) / 20) = (4989143962196378 : ℚ) * 2 ^ (-(47 : ℤ)) := by
    have he : Int.log 2 ((709 : ℚ) / 20) = 5 :=
      Int_log_eval (by norm_num) (by norm_num) (by norm_num)
    have hm : roundHalfEven ((709 : ℚ) / 20 * 2 ^ (47 : ℤ)) = 4989143962196378 := by
      have hf : ⌊(709 : ℚ) / 20 * 2 ^ (47 : ℤ)⌋ = 4989143962196377 := by norm_num
      rw [roundHalfEven_eq_add_one hf (by norm_num)]
      decide
    exact roundDouble_eval (by norm_num) he (by norm_num) (by norm_num) hm
  have hs2 : floatFitScale 682 20 683 709 = (4510203145885702 : ℚ) * 2 ^ (-(52 : ℤ)) := by
    rw [floatFitScale]
    simp only [Nat.cast_ofNat]
    rw [hr3, hr4]
    exact min_eq_left (by norm_num)
  have hp3 : roundDouble ((682 : ℚ) * ((4510203145885702 : ℚ) * 2 ^ (-(52 : ℤ)))) =
      (6007731534168064 : ℚ) * 2 ^ (-(43 : ℤ)) := by
    have he : Int.log 2 ((682 : ℚ) * ((4510203145885702 : ℚ) * 2 ^ (-(52 : ℤ)))) = 9 :=
      Int_log_eval (by positivity) (by norm_num) (by norm_num)
    have hm : roundHalfEven ((682 : ℚ) * ((4510203145885702 : ℚ) * 2 ^ (-(52 : ℤ))) *
        2 ^ (43 : ℤ)) = 6007731534168064 := by
      have hf : ⌊(682 : ℚ) * ((4510203145885702 : ℚ) * 2 ^ (-(52 : ℤ))) * 2 ^ (43 : ℤ)⌋ =
          6007731534168063 := by norm_num
      rw [roundHalfEven_eq_add_one hf (by norm_num)]
      decide
    exact roundDouble_eval (by positivity) he (by norm_num) (by norm_num) hm
  have hW2 : floatFitW 682 20 683 709 = 683 := by
    rw [floatFitW]
    simp only [Nat.cast_ofNat]
    rw [hs2, hp3, pyInt, if_pos (by positivity)]
    have hfl : ⌊(6007731534168064 : ℚ) * 2 ^ (-(43 : ℤ))⌋ = 683 := by norm_num
    rw [hfl]
    decide
  have hp4 : roundDouble ((20 : ℚ) * ((4510203145885702 : ℚ) * 2 ^ (-(52 : ℤ)))) =
      (5637753932357128 : ℚ) * 2 ^ (-(48 : ℤ)) := by
    have he : Int.log 2 ((20 : ℚ) * ((4510203145885702 : ℚ) * 2 ^ (-(52 : ℤ)))) = 4 :=
      Int_log_eval (by positivity) (by norm_num) (by norm_num)
    have hm : roundHalfEven ((20 : ℚ) * ((4510203145885702 : ℚ) * 2 ^ (-(52 : ℤ))) *
        2 ^ (48 : ℤ)) = 5637753932357128 := by
      have hf : ⌊(20 : ℚ) * ((4510203145885702 : ℚ) * 2 ^ (-(52 : ℤ))) * 2 ^ (48 : ℤ)⌋ =
          5637753932357127 := by norm_num
      rw [roundHalfEven_tie_odd hf (by norm_num) (by norm_num)]
      decide
    exact roundDouble_eval (by positivity) he (by norm_num) (by norm_num) hm
  have hH2 : floatFitH 682 20 683 709 = 20 := by
    rw [floatFitH]
    simp only [Nat.cast_ofNat]
    rw [hs2, hp4, pyInt, if_pos (by positivity)]
    have hfl : ⌊(5637753932357128 : ℚ) * 2 ^ (-(48 : ℤ))⌋ = 20 := by norm_num
    rw [hfl]
    decide
  refine ⟨hW1, hH1, hW2, hH2, ?_⟩
  rw [hW1, hH1]
  show ¬(floatFitW 682 20 683 709 = 682 ∧ floatFitH 682 20 683 709 = 20)
  rintro ⟨hcontra, -⟩
  rw [hW2] at hcontra
  exact absurd hcontra (by decide)

/-- C9 (corrected): under exact real/rational arithmetic the fit
computation is idempotent — feeding the fitted output dimensions back
through the fit computation under the same viewport returns them
unchanged.  (The program's IEEE float arithmetic violates the original
claim; see the counterexample above: the exactness `w * (vw/w) = vw` this
proof relies on does not survive float rounding.) -/
theorem fit_idempotent (w h vw vh : ℕ) (hw : 1 ≤ w) (hh : 1 ≤ h)
    (hvw : 1 ≤ vw) (hvh : 1 ≤ vh) :
    fitW (fitW w h vw vh).toNat (fitH w h vw vh).toNat vw vh = fitW w h vw vh ∧
    fitH (fitW w h vw vh).toNat (fitH w h vw vh).toNat vw vh = fitH w h vw vh := by
  have h1W : 1 ≤ fitW w h vw vh := one_le_fitW w h vw vh
  have h1H : 1 ≤ fitH w h vw vh := one_le_fitH w h vw vh
  set W := (fitW w h vw vh).toNat with hWdef
  set H := (fitH w h vw vh).toNat with hHdef
  have hWcast : (W : ℤ) = fitW w h vw vh := Int.toNat_of_nonneg (by linarith)
  have hHcast : (H : ℤ) = fitH w h vw vh := Int.toNat_of_nonneg (by linarith)
  have hW1 : 1 ≤ W := by
    have : (1 : ℤ) ≤ (W : ℤ) := by rw [hWcast]; exact h1W
    exact_mod_cast this
  have hH1 : 1 ≤ H := by
    have : (1 : ℤ) ≤ (H : ℤ) := by rw [hHcast]; exact h1H
    exact_mod_cast this
  have hWle : W ≤ vw := by
    have : (W : ℤ) ≤ (vw : ℤ) := by rw [hWcast]; exact fitW_le_viewport w h vw vh hw hvw
    exact_mod_cast this
  have hHle : H ≤ vh := by
    have : (H : ℤ) ≤ (vh : ℤ) := by rw [hHcast]; exact fitH_le_viewport w h vw vh hh hvh
    exact_mod_cast this
  have hbind : W = vw ∨ H = vh := by
    rcases min_cases ((vw : ℚ) / (w : ℚ)) ((vh : ℚ) / (h : ℚ)) with ⟨hc, _⟩ | ⟨hc, _⟩
    · left
      have : fitW w h vw vh = (vw : ℤ) :=
        fitW_eq_of_scale_left w h vw vh hw hvw (by rw [fitScale]; exact hc)
      rw [hWdef, this, Int.toNat_natCast]
    · right
      have : fitH w h vw vh = (vh : ℤ) :=
        fitH_eq_of_scale_right w h vw vh hh hvh (by rw [fitScale]; exact hc)
      rw [hHdef, this, Int.toNat_natCast]
  have hW0 : (0 : ℚ) < (W : ℚ) := by exact_mod_cast hW1
  have hH0 : (0 : ℚ) < (H : ℚ) := by exact_mod_cast hH1
  have ha : 1 ≤ (vw : ℚ) / (W : ℚ) := (one_le_div hW0).mpr (by exact_mod_cast hWle)
  have hb : 1 ≤ (vh : ℚ) / (H : ℚ) := (one_le_div hH0).mpr (by exact_mod_cast hHle)
  have hs1 : fitScale W H vw vh = 1 := by
    rw [fitScale]
    rcases hbind with hWvw | hHvh
    · have hx : (vw : ℚ) / (W : ℚ) = 1 := by
        rw [hWvw]; exact div_self (Nat.cast_ne_zero.mpr (by omega))
      rw [hx]
      exact min_eq_left hb
    · have hx : (vh : ℚ) / (H : ℚ) = 1 := by
        rw [hHvh]; exact div_self (Nat.cast_ne_zero.mpr (by omega))
      rw [hx]
      exact min_eq_right ha
  constructor
  · rw [fitW, hs1, mul_one, pyInt_of_nonneg (Nat.cast_nonneg W), Int.floor_natCast,
      max_eq_left (by exact_mod_cast hW1)]
    exact hWcast
  · rw [fitH, hs1, mul_one, pyInt_of_nonneg (Nat.cast_nonneg H), Int.floor_natCast,
      max_eq_left (by exact_mod_cast hH1)]
    exact hHcast

/-- Witness for C9 at image 5×3 in a 3×3 viewport. -/
theorem fit_idempotent_witness :
    1 ≤ 5 ∧ 1 ≤ 3 ∧ 1 ≤ 3 ∧ 1 ≤ 3 ∧
    (fitW (fitW 5 3 3 3).toNat (fitH 5 3 3 3).toNat 3 3 = fitW 5 3 3 3 ∧
     fitH (fitW 5 3 3 3).toNat (fitH 5 3 3 3).toNat 3 3 = fitH 5 3 3 3) :=
  ⟨by decide, by decide, by decide, by decide,
    fit_idempotent 5 3 3 3 (by decide) (by decide) (by decide) (by decide)⟩

-- § Claim C2

/-- C2: with phone mode off (out of the spec's scope), a displayed in-range
index with a prefetched fitted image at zoom 1.0 presents the fitted image
iff its dimensions are within 2 px per axis of the fit dimensions for the
live canvas; when either axis is off by more than 2 px, the synchronous
on-demand resample path runs instead. -/
theorem fitted_tolerance_gate (index count : ℤ) (w h fw fh cw ch : ℕ)
    (hrange : index < count) :
    (showImagePath false index count (some (w, h)) (some (fw, fh)) 1 cw ch =
        RenderPath.fromFitted ↔
      (|(fw : ℤ) - fitW w h (max cw 400) (max ch 400)| ≤ 2 ∧
       |(fh : ℤ) - fitH w h (max cw 400) (max ch 400)| ≤ 2)) ∧
    (¬ (|(fw : ℤ) - fitW w h (max cw 400) (max ch 400)| ≤ 2 ∧
        |(fh : ℤ) - fitH w h (max cw 400) (max ch 400)| ≤ 2) →
      showImagePath false index count (some (w, h)) (some (fw, fh)) 1 cw ch =
        RenderPath.fastThenHQ) := by
  have hnr : ¬ (count ≤ index) := not_le.mpr hrange
  have hu : useFitted (some (w, h)) (some (fw, fh)) 1 cw ch =
      decide (|(fw : ℤ) - fitW w h (max cw 400) (max ch 400)| ≤ 2 ∧
              |(fh : ℤ) - fitH w h (max cw 400) (max ch 400)| ≤ 2) := by
    simp only [useFitted, if_pos rfl]
    rfl
  constructor
  · rw [showImagePath, if_neg hnr, hu]
    by_cases hP : (|(fw : ℤ) - fitW w h (max cw 400) (max ch 400)| ≤ 2 ∧
                   |(fh : ℤ) - fitH w h (max cw 400) (max ch 400)| ≤ 2)
    · simp [hP]
    · simp [hP]
  · intro hP
    rw [showImagePath, if_neg hnr, hu]
    simp [hP]

/-- Witness for C2: a 400×400 image on a 400×400 canvas with a 400×400
prefetched fitted image (index 0 of 1). -/
theorem fitted_tolerance_gate_witness :
    (0 : ℤ) < 1 ∧
    ((showImagePath false 0 1 (some (400, 400)) (some (400, 400)) 1 0 0 =
        RenderPath.fromFitted ↔
      (|(400 : ℤ) - fitW 400 400 (max 0 400) (max 0 400)| ≤ 2 ∧
       |(400 : ℤ) - fitH 400 400 (max 0 400) (max 0 400)| ≤ 2)) ∧
    (¬ (|(400 : ℤ) - fitW 400 400 (max 0 400) (max 0 400)| ≤ 2 ∧
        |(400 : ℤ) - fitH 400 400 (max 0 400) (max 0 400)| ≤ 2) →
      showImagePath false 0 1 (some (400, 400)) (some (400, 400)) 1 0 0 =
        RenderPath.fastThenHQ)) :=
  ⟨by decide, fitted_tolerance_gate 0 1 400 400 400 400 0 0 (by decide)⟩

-- § Claim C10

/-- C10: for a non-empty collection the navigation index stays in
`[0, count-1]`: `on_prev` is a no-op at index ≤ 0, `on_next` is a no-op at
or beyond the last position, `show_image` clamps an index at or past
`count` back to `count-1`, and both steps preserve membership in range. -/
theorem navigation_index_in_range (index count : ℤ) (hcount : 1 ≤ count) :
    (index ≤ 0 → onPrevIndex index = index) ∧
    (count - 1 ≤ index → onNextIndex index count = index) ∧
    (count ≤ index → showImageClampIndex index count = count - 1) ∧
    (0 ≤ index → index < count →
      0 ≤ onPrevIndex index ∧ onPrevIndex index < count ∧
      0 ≤ onNextIndex index count ∧ onNextIndex index count < count) := by
  refine ⟨fun h => if_pos h, fun h => if_pos h, fun h => ?_, fun h0 hlt => ?_⟩
  · rw [showImageClampIndex, if_pos h, max_eq_right (by omega)]
  · refine ⟨?_, ?_, ?_, ?_⟩ <;> simp only [onPrevIndex, onNextIndex] <;> split_ifs <;> omega

/-- Witness for C10 at index 0 of a 3-image collection. -/
theorem navigation_index_in_range_witness :
    (1 : ℤ) ≤ 3 ∧
    (((0 : ℤ) ≤ 0 → onPrevIndex 0 = 0) ∧
     ((3 : ℤ) - 1 ≤ 0 → onNextIndex 0 3 = 0) ∧
     ((3 : ℤ) ≤ 0 → showImageClampIndex 0 3 = 3 - 1) ∧
     ((0 : ℤ) ≤ 0 → (0 : ℤ) < 3 →
       0 ≤ onPrevIndex 0 ∧ onPrevIndex 0 < 3 ∧
       0 ≤ onNextIndex 0 3 ∧ onNextIndex 0 3 < 3)) :=
  ⟨by decide, navigation_index_in_range 0 3 (by decide)⟩

-- § Helper lemmas about the prefetch fold

theorem mem_preloadIndices (index count n k : ℕ) :
    k ∈ preloadIndices index count n ↔ index + 1 ≤ k ∧ k ≤ index + n ∧ k < count := by
  simp only [preloadIndices, List.mem_filter, List.mem_map, List.mem_range,
    decide_eq_true_eq]
  constructor
  · rintro ⟨⟨i, hi, rfl⟩, hk⟩
    omega
  · rintro ⟨h1, h2, h3⟩
    exact ⟨⟨k - index - 1, by omega, by omega⟩, h3⟩

theorem preloadIndices_nodup (index count n : ℕ) : (preloadIndices index count n).Nodup :=
  List.Nodup.filter _ (List.Nodup.map (fun a b hab => by omega) (List.nodup_range n))

theorem preload_fold_some (decode : ℕ → Option (ℕ × ℕ)) (canvasSize : Option (ℕ × ℕ)) :
    ∀ (l : List ℕ) (acc : PreCache × List ℕ) (k : ℕ),
      (((l.foldl (preloadStep decode canvasSize) acc).1) k).isSome →
      (acc.1 k).isSome ∨ k ∈ l := by
  intro l
  induction l with
  | nil => exact fun acc k h => Or.inl h
  | cons j t ih =>
    intro acc k h
    rw [List.foldl_cons] at h
    rcases ih _ k h with hs | hm
    · rw [preloadStep] at hs
      split at hs
      · exact Or.inl hs
      · simp only at hs
        by_cases hkj : k = j
        · exact Or.inr (by simp [hkj])
        · rw [if_neg hkj] at hs
          exact Or.inl hs
    · exact Or.inr (List.mem_cons_of_mem _ hm)

theorem preload_fold_loaded (decode : ℕ → Option (ℕ × ℕ)) (canvasSize : Option (ℕ × ℕ)) :
    ∀ (l : List ℕ) (acc : PreCache × List ℕ) (i : ℕ),
      i ∈ (l.foldl (preloadStep decode canvasSize) acc).2 →
      i ∈ acc.2 ∨ (i ∈ l ∧ acc.1 i = none) := by
  intro l
  induction l with
  | nil => exact fun acc i h => Or.inl h
  | cons j t ih =>
    intro acc i h
    rw [List.foldl_cons] at h
    rcases ih _ i h with hs | ⟨hm, hnone⟩
    · rw [preloadStep] at hs
      split at hs
      · exact Or.inl hs
      · simp only at hs
        rcases List.mem_append.mp hs with h2 | h2
        · exact Or.inl h2
        · refine Or.inr ⟨by simp [List.mem_singleton.mp h2], ?_⟩
          rw [List.mem_singleton.mp h2]
          next hc => exact Option.not_isSome_iff_eq_none.mp hc
    · rw [preloadStep] at hnone
      split at hnone
      · exact Or.inr ⟨List.mem_cons_of_mem _ hm, hnone⟩
      · simp only at hnone
        by_cases hij : i = j
        · rw [if_pos hij] at hnone
          exact absurd hnone (by simp)
        · rw [if_neg hij] at hnone
          exact Or.inr ⟨List.mem_cons_of_mem _ hm, hnone⟩

theorem preload_fold_preserve (decode : ℕ → Option (ℕ × ℕ)) (canvasSize : Option (ℕ × ℕ)) :
    ∀ (l : List ℕ) (acc : PreCache × List ℕ) (k : ℕ), k ∉ l →
      ((l.foldl (preloadStep decode canvasSize) acc).1) k = acc.1 k := by
  intro l
  induction l with
  | nil => exact fun acc k _ => rfl
  | cons j t ih =>
    intro acc k hk
    rw [List.foldl_cons, ih _ k (fun hmem => hk (List.mem_cons_of_mem _ hmem))]
    rw [preloadStep]
    split
    · rfl
    · simp only
      rw [if_neg (fun hkj => hk (by simp [hkj]))]

theorem preload_fold_lookup (decode : ℕ → Option (ℕ × ℕ)) (canvasSize : Option (ℕ × ℕ)) :
    ∀ (l : List ℕ) (acc : PreCache × List ℕ) (k : ℕ), l.Nodup → k ∈ l →
      acc.1 k = none →
      ((l.foldl (preloadStep decode canvasSize) acc).1) k =
        some (decode k, mkFitted (decode k) canvasSize) := by
  intro l
  induction l with
  | nil => exact fun acc k _ hk => absurd hk (List.not_mem_nil k)
  | cons j t ih =>
    intro acc k hnd hk hnone
    rw [List.foldl_cons]
    by_cases hkj : k = j
    · subst hkj
      have hnotin : k ∉ t := (List.nodup_cons.mp hnd).1
      rw [preload_fold_preserve decode canvasSize t _ k hnotin]
      rw [preloadStep, if_neg (by simp [hnone])]
      simp
    · have hkt : k ∈ t := by
        rcases List.mem_cons.mp hk with h | h
        · exact absurd h hkj
        · exact h
      refine ih _ k (List.nodup_cons.mp hnd).2 hkt ?_
      rw [preloadStep]
      split
      · exact hnone
      · simp only
        rw [if_neg hkj]
        exact hnone

theorem preload_fold_loaded_all (decode : ℕ → Option (ℕ × ℕ)) (canvasSize : Option (ℕ × ℕ)) :
    ∀ (l : List ℕ) (acc : PreCache × List ℕ), l.Nodup → (∀ i ∈ l, acc.1 i = none) →
      (l.foldl (preloadStep decode canvasSize) acc).2 = acc.2 ++ l := by
  intro l
  induction l with
  | nil => exact fun acc _ _ => (List.append_nil _).symm
  | cons j t ih =>
    intro acc hnd hall
    rw [List.foldl_cons, preloadStep, if_neg (by simp [hall j (List.mem_cons_self j t)])]
    simp only
    rw [ih _ (List.nodup_cons.mp hnd).2 ?_]
    · simp
    · intro i hi
      simp only
      rw [if_neg (fun hij : i = j => (List.nodup_cons.mp hnd).1 (hij ▸ hi))]
      exact hall i (List.mem_cons_of_mem _ hi)

-- § Claim C3

/-- C3: after a navigation step to index `i` with look-ahead 3 over `count`
images, the prefetch cache's key set is contained in
`{i} ∪ ({i+1,...,i+3} ∩ [0, count))` — every other key having been purged —
and a decode job runs only for desired indices not already present in the
purged cache. -/
theorem preload_window_invariant (decode : ℕ → Option (ℕ × ℕ))
    (canvasSize : Option (ℕ × ℕ)) (cache : PreCache) (index count : ℕ) :
    (∀ k, (((preloadNext decode canvasSize cache index count 3).1) k).isSome →
      k = index ∨ (index + 1 ≤ k ∧ k ≤ index + 3 ∧ k < count)) ∧
    (∀ i ∈ (preloadNext decode canvasSize cache index count 3).2,
      (index + 1 ≤ i ∧ i ≤ index + 3 ∧ i < count) ∧
        preloadPurge cache index count 3 i = none) := by
  constructor
  · intro k hk
    rw [preloadNext] at hk
    rcases preload_fold_some decode canvasSize _ _ k hk with hs | hm
    · by_cases hc : k = index ∨ k ∈ preloadIndices index count 3
      · rcases hc with h | h
        · exact Or.inl h
        · exact Or.inr ((mem_preloadIndices index count 3 k).mp h)
      · simp only [preloadPurge] at hs
        rw [if_neg hc] at hs
        exact absurd hs (by simp)
    · exact Or.inr ((mem_preloadIndices index count 3 k).mp hm)
  · intro i hi
    rw [preloadNext] at hi
    rcases preload_fold_loaded decode canvasSize _ _ i hi with h0 | ⟨hm, hnone⟩
    · exact absurd h0 (List.not_mem_nil i)
    · exact ⟨(mem_preloadIndices index count 3 i).mp hm, hnone⟩

/-- Witness for C3: collection of 10 images at index 0 with a stale cache
entry at index 9; key 2 of the resulting cache is inside the window, and
index 2 was decoded only because it was absent after the purge. -/
theorem preload_window_invariant_witness :
    ((((preloadNext (fun _ => none) none
        (fun k => if k = 9 then some (((none, none) : PreEntry)) else none)
        0 10 3).1) 2).isSome) ∧
    (2 = 0 ∨ (0 + 1 ≤ 2 ∧ 2 ≤ 0 + 3 ∧ 2 < 10)) :=
  ⟨by decide,
    (preload_window_invariant (fun _ => none) none
      (fun k => if k = 9 then some (((none, none) : PreEntry)) else none)
      0 10).1 2 (by decide)⟩

-- § Claim C4

/-- C4 counterexample: the claim that every decoded component present
before a viewport refit survives it is false — `_refit_image` clears the
whole cache, as shown by the entry at key 0 of a cache full of decoded
images vanishing. -/
theorem refit_keeps_decoded_counterexample :
    ¬ ∀ (cache : PreCache) (cw ch : ℕ) (k : ℕ), (cache k).isSome →
        (((refitPrefetch cache cw ch).1) k).isSome := by
  intro hcl
  have := hcl (fun _ => some (((some (4, 3), none) : PreEntry))) 800 600 0 (by decide)
  simp [refitPrefetch] at this

/-- C4 (corrected): `_refit_image` clears the entire prefetch cache —
decoded components are discarded along with fitted ones — records the new
canvas size, and the retriggered `_preload_next` re-decodes every desired
index, recomputing its fitted component against the new canvas size. -/
theorem refit_clears_and_refits (cache : PreCache) (cw ch : ℕ)
    (decode : ℕ → Option (ℕ × ℕ)) (index count : ℕ) :
    (∀ k, ((refitPrefetch cache cw ch).1) k = none) ∧
    (refitPrefetch cache cw ch).2 = (max cw 400, max ch 400) ∧
    (preloadNext decode (some (refitPrefetch cache cw ch).2)
        (refitPrefetch cache cw ch).1 index count 3).2 = preloadIndices index count 3 ∧
    (∀ idx ∈ preloadIndices index count 3, ∀ w h, decode idx = some (w, h) →
      ((preloadNext decode (some (refitPrefetch cache cw ch).2)
          (refitPrefetch cache cw ch).1 index count 3).1) idx =
        some (some (w, h),
          some (fitW w h (max cw 400) (max ch 400), fitH w h (max cw 400) (max ch 400)))) := by
  have hemp : ∀ i : ℕ,
      preloadPurge (refitPrefetch cache cw ch).1 index count 3 i = none := by
    intro i
    rw [preloadPurge]
    split <;> rfl
  refine ⟨fun k => rfl, rfl, ?_, ?_⟩
  · rw [preloadNext]
    rw [preload_fold_loaded_all decode _ _ _ (preloadIndices_nodup index count 3)
      (fun i _ => hemp i)]
    simp
  · intro idx hm w h hd
    rw [preloadNext]
    rw [preload_fold_lookup decode _ _ _ idx (preloadIndices_nodup index count 3) hm
      (hemp idx)]
    rw [hd]
    rfl

/-- Witness for C4: after a refit to an 800×600 canvas, index 1 (decoding
to an 800×20 image) is re-decoded and refitted for the new 800×600 canvas. -/
theorem refit_clears_and_refits_witness :
    (1 ∈ preloadIndices 0 10 3) ∧ ((fun _ => some ((800, 20) : ℕ × ℕ)) 1 = some (800, 20)) ∧
    ((preloadNext (fun _ => some ((800, 20) : ℕ × ℕ))
        (some (refitPrefetch (fun _ => none) 800 600).2)
        (refitPrefetch (fun _ => none) 800 600).1 0 10 3).1) 1 =
      some (some (800, 20),
        some (fitW 800 20 (max 800 400) (max 600 400), fitH 800 20 (max 800 400) (max 600 400))) :=
  ⟨by decide, rfl,
    (refit_clears_and_refits (fun _ => none) 800 600 (fun _ => some ((800, 20) : ℕ × ℕ))
      0 10).2.2.2 1 (by decide) 800 20 rfl⟩

-- § Helper lemmas about the thumbnail grid

theorem mem_visibleIdxRange (firstRow lastRow total i : ℤ) :
    i ∈ visibleIdxRange firstRow lastRow total ↔
      max 0 (firstRow * COLUMNS) ≤ i ∧ i < min total ((lastRow + 1) * COLUMNS) := by
  rw [visibleIdxRange]
  constructor
  · intro hm
    obtain ⟨k, hk, hke⟩ := List.mem_map.mp hm
    rw [List.mem_range] at hk
    omega
  · intro hi
    refine List.mem_map.mpr ⟨(i - max 0 (firstRow * COLUMNS)).toNat, ?_, ?_⟩
    · rw [List.mem_range]
      omega
    · omega

theorem mem_loadVisibleThumbs (cache : ThumbCache) (pending : List ℤ)
    (firstRow lastRow total i : ℤ) :
    i ∈ (loadVisibleThumbs cache pending firstRow lastRow total).toLoad ↔
      (max 0 (firstRow * COLUMNS) ≤ i ∧ i < min total ((lastRow + 1) * COLUMNS) ∧
       cache i = none ∧ i ∉ pending) := by
  have hdef : (loadVisibleThumbs cache pending firstRow lastRow total).toLoad =
      (visibleIdxRange firstRow lastRow total).filter
        (fun i => decide (cache i = none ∧ i ∉ pending)) := rfl
  rw [hdef, List.mem_filter, mem_visibleIdxRange, decide_eq_true_eq]
  tauto

theorem submit_mem_submitEvents (l : List ℤ) (i : ℤ) :
    ThumbEvent.submit i ∈ submitEvents l ↔ i ∈ l := by
  simp [submitEvents]

theorem submitEvents_order (l : List ℤ) (i : ℤ) (h : i ∈ l) :
    ∃ p q, submitEvents l = p ++ ThumbEvent.addPending i :: ThumbEvent.submit i :: q := by
  induction l with
  | nil => exact absurd h (List.not_mem_nil i)
  | cons j t ih =>
    rcases List.mem_cons.mp h with rfl | ht
    · exact ⟨[], submitEvents t, by simp [submitEvents]⟩
    · obtain ⟨p, q, hpq⟩ := ih ht
      refine ⟨ThumbEvent.addPending j :: ThumbEvent.submit j :: p, q, ?_⟩
      simp only [submitEvents, List.flatMap_cons] at hpq ⊢
      rw [hpq]
      rfl

-- § Claim C7

/-- C7: in a `_load_visible_thumbs` pass, an index is submitted to the
worker pool only if it is absent from the thumbnail cache and from the
pending set; every submitted index enters the pending set, and its
`addPending` event precedes its `submit` event; an index already pending is
never submitted again. -/
theorem thumb_single_flight (cache : ThumbCache) (pending : List ℤ)
    (firstRow lastRow total : ℤ) (i : ℤ) :
    (ThumbEvent.submit i ∈ (loadVisibleThumbs cache pending firstRow lastRow total).events →
      cache i = none ∧ i ∉ pending ∧
      i ∈ (loadVisibleThumbs cache pending firstRow lastRow total).newPending ∧
      ∃ p q, (loadVisibleThumbs cache pending firstRow lastRow total).events =
        p ++ ThumbEvent.addPending i :: ThumbEvent.submit i :: q) ∧
    (i ∈ pending →
      ThumbEvent.submit i ∉ (loadVisibleThumbs cache pending firstRow lastRow total).events) := by
  constructor
  · intro hs
    have hmem : i ∈ (loadVisibleThumbs cache pending firstRow lastRow total).toLoad :=
      (submit_mem_submitEvents _ i).mp hs
    have hprop := (mem_loadVisibleThumbs cache pending firstRow lastRow total i).mp hmem
    exact ⟨hprop.2.2.1, hprop.2.2.2, List.mem_append_right _ hmem,
      submitEvents_order _ i hmem⟩
  · intro hp hs
    have hmem : i ∈ (loadVisibleThumbs cache pending firstRow lastRow total).toLoad :=
      (submit_mem_submitEvents _ i).mp hs
    exact ((mem_loadVisibleThumbs cache pending firstRow lastRow total i).mp hmem).2.2.2 hp

/-- Witness for C7: an empty cache and pending set over rows [0,0] of 37
images; index 3 is submitted, from an empty cache and pending set, entering
the pending set with `addPending` before `submit`. -/
theorem thumb_single_flight_witness :
    (ThumbEvent.submit 3 ∈ (loadVisibleThumbs (fun _ => none) [] 0 0 37).events) ∧
    ((fun _ => none : ThumbCache) 3 = none ∧ (3 : ℤ) ∉ ([] : List ℤ) ∧
     (3 : ℤ) ∈ (loadVisibleThumbs (fun _ => none) [] 0 0 37).newPending ∧
     ∃ p q, (loadVisibleThumbs (fun _ => none) [] 0 0 37).events =
       p ++ ThumbEvent.addPending 3 :: ThumbEvent.submit 3 :: q) :=
  ⟨by decide, (thumb_single_flight (fun _ => none) [] 0 0 37 3).1 (by decide)⟩

theorem pyInt_visible_first : pyInt ((320 : ℚ) / (CELL_H : ℚ)) = 2 := by
  rw [pyInt, CELL_H]
  norm_num

theorem pyInt_visible_last : pyInt (((320 : ℚ) + ((448 : ℤ) : ℚ)) / (CELL_H : ℚ)) = 4 := by
  rw [pyInt, CELL_H]
  norm_num

-- § Claim C8

/-- C8: for 37 images in 6 columns (7 rows) with visible rows [2,4], the
visible-range computation extends the range by one overscan row per side to
rows 1-5; thumbnail submissions then lie only in indices 6-35, and with an
empty cache and pending set they are exactly the indices 6 through 35. -/
theorem overscan_range_scenario (yTop : ℚ) (canvasH : ℤ)
    (h1 : 1 < canvasH)
    (h2 : pyInt (yTop / (CELL_H : ℚ)) = 2)
    (h3 : pyInt ((yTop + (canvasH : ℚ)) / (CELL_H : ℚ)) = 4) :
    getVisibleRange canvasH yTop (totalRowsOf 37) = (1, 5) ∧
    (∀ (cache : ThumbCache) (pending : List ℤ) (i : ℤ),
      ThumbEvent.submit i ∈ (loadVisibleThumbs cache pending 1 5 37).events →
        6 ≤ i ∧ i ≤ 35) ∧
    (loadVisibleThumbs (fun _ => none) [] 1 5 37).toLoad =
      (List.range 30).map (fun k => 6 + (k : ℤ)) := by
  refine ⟨?_, ?_, ?_⟩
  · rw [getVisibleRange, if_neg (by omega)]
    rw [h2, h3, show totalRowsOf 37 = 7 from by decide]
    decide
  · intro cache pending i hs
    have hmem : i ∈ (loadVisibleThumbs cache pending 1 5 37).toLoad :=
      (submit_mem_submitEvents _ i).mp hs
    have hprop := (mem_loadVisibleThumbs cache pending 1 5 37 i).mp hmem
    have hb1 := hprop.1
    have hb2 := hprop.2.1
    simp only [COLUMNS] at hb1 hb2
    omega
  · decide

/-- Witness for C8: scroll offset 320 with a 448-pixel canvas shows rows
[2,4] (`320/160 = 2`, `768/160 = 4.8`). -/
theorem overscan_range_scenario_witness :
    ((1 : ℤ) < 448 ∧ pyInt ((320 : ℚ) / (CELL_H : ℚ)) = 2 ∧
     pyInt (((320 : ℚ) + ((448 : ℤ) : ℚ)) / (CELL_H : ℚ)) = 4) ∧
    (getVisibleRange 448 320 (totalRowsOf 37) = (1, 5) ∧
     (∀ (cache : ThumbCache) (pending : List ℤ) (i : ℤ),
       ThumbEvent.submit i ∈ (loadVisibleThumbs cache pending 1 5 37).events →
         6 ≤ i ∧ i ≤ 35) ∧
     (loadVisibleThumbs (fun _ => none) [] 1 5 37).toLoad =
       (List.range 30).map (fun k => 6 + (k : ℤ))) :=
  ⟨⟨by decide, pyInt_visible_first, pyInt_visible_last⟩,
    overscan_range_scenario 320 448 (by decide) pyInt_visible_first pyInt_visible_last⟩

-- § Helper lemmas about the decoder

theorem roundAspect_toNat_le (choice : Bool) {q : ℚ} {n : ℕ} (hq : q ≤ (n : ℚ))
    (hn : 1 ≤ n) : (roundAspect choice q).toNat ≤ n := by
  rw [roundAspect, Int.toNat_le]
  apply max_le
  · split
    · calc ⌊q⌋ ≤ ⌊(n : ℚ)⌋ := Int.floor_le_floor hq
        _ = (n : ℤ) := Int.floor_natCast n
    · exact Int.ceil_le.mpr hq
  · exact_mod_cast hn

theorem pilThumbnail_le (choice : Bool) (w h : ℕ) :
    (pilThumbnail choice w h maxDim).1 ≤ maxDim ∧
    (pilThumbnail choice w h maxDim).2 ≤ maxDim := by
  have hmd : ((maxDim : ℕ) : ℚ) ≠ 0 := by rw [maxDim]; norm_num
  have hdivself : ((maxDim : ℕ) : ℚ) / ((maxDim : ℕ) : ℚ) = 1 := div_self hmd
  have hmd1 : 1 ≤ maxDim := by rw [maxDim]; norm_num
  rw [pilThumbnail]
  split
  · next hin => exact hin
  · split
    · next hge =>
      have haspect : (w : ℚ) / (h : ℚ) ≤ 1 := by rw [hdivself] at hge; exact hge
      refine ⟨?_, le_refl _⟩
      refine roundAspect_toNat_le choice ?_ hmd1
      calc (maxDim : ℚ) * ((w : ℚ) / (h : ℚ)) ≤ (maxDim : ℚ) * 1 :=
            mul_le_mul_of_nonneg_left haspect (Nat.cast_nonneg _)
        _ = (maxDim : ℚ) := mul_one _
    · next hge =>
      have haspect : 1 < (w : ℚ) / (h : ℚ) := by
        rw [hdivself] at hge
        exact lt_of_not_ge hge
      exact ⟨le_refl _,
        roundAspect_toNat_le choice (div_le_self (Nat.cast_nonneg _) haspect.le) hmd1⟩

-- § Claim C6

/-- C6: for every decode outcome, `_load_image_from_disk` either returns
the failure marker `None` (in particular on any exception — the model is a
total function, so nothing is raised) or a decoded image whose width and
height are both at most 4096: unchanged (full resolution) when the source
was within the ceiling, downsampled via the aspect-preserving PIL
`thumbnail` otherwise. -/
theorem decoder_bounded (choice : Bool) (decoded : Option (ℕ × ℕ)) :
    (decoded = none → loadImageFromDisk choice decoded = none) ∧
    (∀ w h, decoded = some (w, h) →
      (¬(maxDim < w ∨ maxDim < h) → loadImageFromDisk choice decoded = some (w, h)) ∧
      ∃ p : ℕ × ℕ, loadImageFromDisk choice decoded = some p ∧
        p.1 ≤ maxDim ∧ p.2 ≤ maxDim) := by
  constructor
  · rintro rfl
    rfl
  · rintro w h rfl
    constructor
    · intro hin
      simp [loadImageFromDisk, hin]
    · by_cases hex : maxDim < w ∨ maxDim < h
      · exact ⟨pilThumbnail choice w h maxDim, by simp [loadImageFromDisk, hex],
          (pilThumbnail_le choice w h).1, (pilThumbnail_le choice w h).2⟩
      · push_neg at hex
        exact ⟨(w, h), by simp [loadImageFromDisk]; omega, hex.1, hex.2⟩

/-- Witness for C6: a 5000×2000 source is returned with both dimensions
within the 4096 ceiling. -/
theorem decoder_bounded_witness :
    (some ((5000, 2000) : ℕ × ℕ) = some (5000, 2000)) ∧
    (∃ p : ℕ × ℕ, loadImageFromDisk true (some (5000, 2000)) = some p ∧
      p.1 ≤ maxDim ∧ p.2 ≤ maxDim) :=
  ⟨rfl, ((decoder_bounded true (some (5000, 2000))).2 5000 2000 rfl).2⟩

-- § Claim C5

/-- C5 counterexample: a failed thumbnail decode of index 0 records no
sentinel — the thumbnail cache still has no entry at 0 — and the next
visible-thumbs pass submits index 0 to the worker pool again, so the
decode is re-attempted, contrary to the claim. -/
theorem thumb_failure_counterexample :
    (loadAndCallback (fun _ => none) false (fun _ => none) [0] 0).cache 0 = none ∧
    ThumbEvent.submit 0 ∈
      (loadVisibleThumbs
        (loadAndCallback (fun _ => none) false (fun _ => none) [0] 0).cache
        (loadAndCallback (fun _ => none) false (fun _ => none) [0] 0).pending
        0 0 37).events := by
  constructor
  · rfl
  · decide

/-- C5 (corrected): a prefetch decode failure is recorded as a
`(None, None)` sentinel entry in the prefetch cache, and the viewer renders
the explicit cannot-load state for an index whose decoded image is absent;
a thumbnail decode failure, however, is not recorded — the thumbnail cache
is left unchanged and the index merely leaves the pending set — so a later
visible-thumbs pass over that index submits it again (the decode is
retried). -/
theorem decode_failure_handling
    (decode : ℕ → Option (ℕ × ℕ)) (canvasSize : Option (ℕ × ℕ)) (cache : PreCache)
    (index count idx : ℕ)
    (dec : ℤ → Option (ℕ × ℕ)) (tcache : ThumbCache) (pending : List ℤ)
    (firstRow lastRow total j : ℤ) :
    (idx ∈ preloadIndices index count 3 → cache idx = none → decode idx = none →
      ((preloadNext decode canvasSize cache index count 3).1) idx = some (none, none)) ∧
    (∀ pindex pcount : ℤ, pindex < pcount → ∀ (zoom : ℚ) (cw ch : ℕ),
      showImagePath false pindex pcount none none zoom cw ch = RenderPath.cannotLoad) ∧
    (dec j = none →
      (loadAndCallback dec false tcache pending j).cache = tcache ∧
      j ∉ (loadAndCallback dec false tcache pending j).pending) ∧
    (tcache j = none → j ∉ pending →
      max 0 (firstRow * COLUMNS) ≤ j → j < min total ((lastRow + 1) * COLUMNS) →
      ThumbEvent.submit j ∈
        (loadVisibleThumbs tcache pending firstRow lastRow total).events) := by
  refine ⟨?_, ?_, ?_, ?_⟩
  · intro hm hnone hdec
    rw [preloadNext]
    rw [preload_fold_lookup decode canvasSize _ _ idx (preloadIndices_nodup index count 3)
      hm (by simp only [preloadPurge]; split <;> simp [hnone])]
    rw [hdec]
    rfl
  · intro pindex pcount hlt zoom cw ch
    simp [showImagePath, useFitted, not_le.mpr hlt]
  · intro hdec
    constructor
    · simp [loadAndCallback, hdec]
    · simp [loadAndCallback, hdec, List.mem_filter]
  · intro h1 h2 h3 h4
    exact (submit_mem_submitEvents _ j).mpr
      ((mem_loadVisibleThumbs tcache pending firstRow lastRow total j).mpr ⟨h3, h4, h1, h2⟩)

/-- Witness for C5: prefetch index 1 fails to decode and gets the sentinel;
an empty viewer state shows cannot-load; a failed thumbnail decode of index
3 leaves the cache unchanged and index 3 out of the pending set, and a pass
over rows [0,0] of 37 images submits index 3. -/
theorem decode_failure_handling_witness :
    (((preloadNext (fun _ => none) none (fun _ => none) 0 10 3).1) 1 =
      some (none, none)) ∧
    (showImagePath false 0 1 none none 1 0 0 = RenderPath.cannotLoad) ∧
    ((loadAndCallback (fun _ => none) false (fun _ => none) [] 3).cache =
      (fun _ => none) ∧
     (3 : ℤ) ∉ (loadAndCallback (fun _ => none) false (fun _ => none) [] 3).pending) ∧
    (ThumbEvent.submit 3 ∈ (loadVisibleThumbs (fun _ => none) [] 0 0 37).events) :=
  have h := decode_failure_handling (fun _ => none) none (fun _ => none) 0 10 1
    (fun _ => none) (fun _ => none) [] 0 0 37 3
  ⟨h.1 (by decide) rfl rfl, h.2.1 0 1 (by decide) 1 0 0, h.2.2.1 rfl,
   h.2.2.2 rfl (by decide) (by decide) (by decide)⟩
